import Mathlib

/-!
Verification model of the Cloud-Code-Execution-Flow-UI execution core.

The development shallowly embeds the three executor classes of the
repository (`CodeExecutor`, `FlowExecutor`, `QueueFlowExecutor`) as pure
Lean functions and proves the behavioural properties stated in the
design document about them.

Modelling conventions:
* JavaScript runtime values that cross the executor boundaries are
  modelled by the inductive `JSValue` (booleans, numbers as `Int`,
  strings, arrays, `null`, `undefined`, and plain objects as association
  lists).  Non-integral doubles, `NaN` and `-0` do not occur in any
  verified property and are not modelled.
* A user script handed to `CodeExecutor` is opaque dynamic code; it is
  modelled by the `Script` structure carrying its observable behaviour:
  an optional compilation error and, when it compiles, a function from
  the `input` value to either a thrown error message (`Except.error`)
  or a returned value (`Except.ok`).  The `variables` bag is always the
  empty object at every call site of the repository and is omitted.
* Wall-clock readings (`new Date().toISOString()`) are modelled by the
  uninterpreted constant `isoNow`; no verified property depends on the
  value of a timestamp.
* `console.log` diagnostics are host-side output with no observable
  effect on any result and are not modelled.
-/

/-- A JavaScript runtime value, as far as the executors observe it. -/
inductive JSValue : Type where
  | bool (b : Bool)
  | num (n : Int)
  | str (s : String)
  | arr (elems : List JSValue)
  | null
  | undef
  | obj (fields : List (String × JSValue))

/-- Model of `src/utils/codeExecutor.ts` `ExecutionContext`.  The
`variables` map is always empty at every call site and is omitted. -/
structure ExecutionContext where
  input : JSValue := JSValue.undef

/-- Model of `codeExecutor.ts` `ExecutionResult` (the unused
`nextNodeId` field is omitted).  On success `output` is `some` of the
script's value; on failure `error` is `some` of the message. -/
structure ExecutionResult where
  success : Bool
  output : Option JSValue := none
  error : Option String := none

/-- The observable behaviour of one user script string: whether
`new Function` throws at compilation, and, if not, what invoking the
compiled function on the `input` value does (`Except.error` models a
thrown exception or rejected promise, `Except.ok` a returned value). -/
structure Script where
  compileError : Option String
  invoke : JSValue → Except String JSValue

/-- Model of `CodeExecutor.createSafeFunction`: a compilation failure is
rethrown wrapped in a "Code compilation error" message, otherwise the
compiled callable is returned. -/
def createSafeFunction (code : Script) :
    Except String (JSValue → Except String JSValue) :=
  match code.compileError with
  | some e => Except.error ("Code compilation error: " ++ e)
  | none => Except.ok code.invoke

/-- Model of `CodeExecutor.executeCode`: compile and invoke inside one
try/catch; any failure becomes a `success := false` result carrying the
error message, and no exception escapes (the function is total). -/
def executeCode (code : Script) (context : ExecutionContext) :
    ExecutionResult :=
  match createSafeFunction code with
  | Except.error e => { success := false, error := some e }
  | Except.ok f =>
    match f context.input with
    | Except.ok v => { success := true, output := some v }
    | Except.error e => { success := false, error := some e }

/-- Model of `CodeExecutor.evaluateCondition`: the truthiness
classification used for branch decisions. -/
def evaluateCondition : JSValue → Bool
  | JSValue.bool b => b
  | JSValue.num n => n != 0
  | JSValue.str s => s.length > 0
  | JSValue.arr elems => elems.length > 0
  | JSValue.null => false
  | JSValue.undef => false
  | JSValue.obj _ => true

/-- Model of the `Edge` interface of `store/flowSlice.ts`.  The optional
handle tags are never read by any executor and are omitted. -/
structure Edge where
  id : String
  source : String
  target : String
deriving DecidableEq

/-- Model of the `CodeNode` interface of `store/flowSlice.ts`, flattened
to the fields the executors read: `id`, `data.label` and `data.code`
(the canvas position and the transient UI annotations are never read by
an executor).  The script text is carried as its observable behaviour. -/
structure CodeNode where
  id : String
  label : String
  code : Script

/-- Model of `FlowExecutor.findNextNode`: zero outgoing edges ends the
flow; one edge is followed unconditionally; otherwise the condition
routes to the first edge when truthy and to the second when falsy
(an edge object is always truthy in JavaScript, so the guards reduce to
presence checks). -/
def findNextNode (currentNodeId : String) (edges : List Edge)
    (output : JSValue) : Option String :=
  let outgoingEdges := edges.filter (fun e => e.source == currentNodeId)
  if outgoingEdges.length == 0 then none
  else if outgoingEdges.length == 1 then
    (outgoingEdges.get? 0).map (fun e => e.target)
  else
    let condition := evaluateCondition output
    if condition then
      match outgoingEdges.get? 0 with
      | some e => some e.target
      | none => none
    else
      match outgoingEdges.get? 1 with
      | some e => some e.target
      | none => none

/-- Model of the `FlowExecutionResult` interface.  A successful run has
`finalOutput = some` of the last output and no error; a failed run has
no final output and `error = some` message. -/
structure FlowExecutionResult where
  success : Bool
  executionPath : List String
  finalOutput : Option JSValue := none
  error : Option String := none

/-- Model of `FlowExecutor.findStartNode`: the first node with no
incoming edge, if any. -/
def findStartNode (nodes : List CodeNode) (edges : List Edge) :
    Option String :=
  let targetNodes := edges.map (fun e => e.target)
  let startNodes := nodes.filter (fun n => !(targetNodes.contains n.id))
  (startNodes.get? 0).map (fun n => n.id)

/-- Renders an optional error message the way JavaScript template
interpolation renders a possibly-`undefined` value. -/
def optStr : Option String → String
  | some s => s
  | none => "undefined"

theorem length_filter_mono {α : Type} (p q : α → Bool) (l : List α)
    (h : ∀ a ∈ l, p a = true → q a = true) :
    (l.filter p).length ≤ (l.filter q).length := by
  induction l with
  | nil => simp
  | cons x xs ih =>
    have hx := h x (List.mem_cons_self x xs)
    have ihx := ih (fun a ha hp => h a (List.mem_cons_of_mem x ha) hp)
    by_cases hp : p x = true
    · simp [List.filter_cons, hp, h x (List.mem_cons_self x xs) hp]
      omega
    · have hp' : p x = false := by
        cases hpx : p x
        · rfl
        · exact absurd hpx hp
      cases hq : q x
      · simp [List.filter_cons, hp', hq]; omega
      · simp [List.filter_cons, hp', hq]; omega

theorem length_filter_lt {α : Type} (p q : α → Bool) (l : List α)
    (h : ∀ a ∈ l, p a = true → q a = true) (a : α) (ha : a ∈ l)
    (hpa : p a = false) (hqa : q a = true) :
    (l.filter p).length < (l.filter q).length := by
  induction l with
  | nil => cases ha
  | cons x xs ih =>
    have hrest : ∀ b ∈ xs, p b = true → q b = true :=
      fun b hb hp => h b (List.mem_cons_of_mem x hb) hp
    rcases List.mem_cons.mp ha with rfl | hmem
    · have hle := length_filter_mono p q xs hrest
      simp [List.filter_cons, hpa, hqa]
      omega
    · have hlt := ih hrest hmem
      by_cases hp : p x = true
      · simp [List.filter_cons, hp, h x (List.mem_cons_self x xs) hp]
        omega
      · have hp' : p x = false := by
          cases hpx : p x
          · rfl
          · exact absurd hpx hp
        cases hq : q x
        · simp [List.filter_cons, hp', hq]; omega
        · simp [List.filter_cons, hp', hq]; omega

/-- Model of the while loop inside `FlowExecutor.executeFlow`, with the
surrounding try/catch: a thrown error ("node not found" or "execution
failed") becomes a failed result carrying the path accumulated so far.
The loop exits successfully when the current id is absent or falsy
(an empty-string id is falsy in JavaScript) or already visited. -/
def execLoop (nodes : List CodeNode) (edges : List Edge)
    (visited : List String) (path : List String)
    (cur : Option String) (out : JSValue) : FlowExecutionResult :=
  match cur with
  | none => { success := true, executionPath := path, finalOutput := some out }
  | some c =>
    if c = "" then
      { success := true, executionPath := path, finalOutput := some out }
    else if hv : c ∈ visited then
      { success := true, executionPath := path, finalOutput := some out }
    else
      match hf : nodes.find? (fun n => n.id == c) with
      | none =>
        { success := false, executionPath := path ++ [c],
          error := some ("Node " ++ c ++ " not found") }
      | some currentNode =>
        let result := executeCode currentNode.code { input := out }
        if result.success then
          match result.output with
          | some v =>
            execLoop nodes edges (c :: visited) (path ++ [c])
              (findNextNode c edges v) v
          | none =>
            execLoop nodes edges (c :: visited) (path ++ [c])
              (findNextNode c edges JSValue.undef) JSValue.undef
        else
          { success := false, executionPath := path ++ [c],
            error := some ("Node " ++ c ++ " execution failed: " ++
              optStr result.error) }
termination_by (nodes.filter (fun n => decide (n.id ∉ visited))).length
decreasing_by
  all_goals
    refine length_filter_lt _ _ nodes ?_ currentNode
      (List.mem_of_find?_eq_some hf) ?_ ?_
    · intro a _ hp
      simp only [decide_eq_true_eq, List.mem_cons, not_or] at hp ⊢
      exact hp.2
    · have hid : currentNode.id = c := by
        have := List.find?_some hf
        exact eq_of_beq this
      simp [hid]
    · have hid : currentNode.id = c := by
        have := List.find?_some hf
        exact eq_of_beq this
      simp [hid, hv]

/-- The id the run starts from:
`startNodeId || this.findStartNode(nodes, edges)` — an absent or falsy
(empty-string) explicit id falls back to `findStartNode`. -/
def startId (nodes : List CodeNode) (edges : List Edge)
    (startNodeId : Option String) : Option String :=
  match startNodeId with
  | some s => if s = "" then findStartNode nodes edges else some s
  | none => findStartNode nodes edges

/-- Model of `FlowExecutor.executeFlow`: pick the start node, fail when
there is none (or it is falsy), otherwise run the loop with a `null`
initial output. -/
def FlowExecutor.executeFlow (nodes : List CodeNode) (edges : List Edge)
    (startNodeId : Option String := none) : FlowExecutionResult :=
  match startId nodes edges startNodeId with
  | none =>
    { success := false, executionPath := [], error := some "No start node found" }
  | some c =>
    if c = "" then
      { success := false, executionPath := [], error := some "No start node found" }
    else
      execLoop nodes edges [] [] (some c) JSValue.null

/-- JavaScript `String.prototype.split` with a one-character separator,
over character lists (structural recursion, so concrete queues reduce
inside the kernel): `""` splits to `[""]`, separators at the ends and
adjacent separators produce empty segments. -/
def splitOnChar (sep : Char) : List Char → List (List Char)
  | [] => [[]]
  | c :: rest =>
    let r := splitOnChar sep rest
    if c = sep then [] :: r
    else
      match r with
      | [] => [[c]]
      | g :: gs => (c :: g) :: gs

/-- Model of JavaScript `parseInt` (radix 10) over a character list:
skip leading whitespace, read an optional sign and then the longest
prefix of decimal digits; `none` models the `NaN` result when no digit
is read.  Hexadecimal `0x` forms do not occur in node ids and are not
modelled. -/
def jsParseIntChars (cs : List Char) : Option Int :=
  let cs1 := cs.dropWhile (fun ch => ch.isWhitespace)
  let signed : Int × List Char :=
    match cs1 with
    | '-' :: t => (-1, t)
    | '+' :: t => (1, t)
    | t => (1, t)
  let ds := signed.2.takeWhile (fun ch => ch.isDigit)
  if ds.isEmpty then none
  else
    some (signed.1 *
      (ds.foldl (fun a ch => a * 10 + (ch.toNat - '0'.toNat)) 0 : Nat))

/-- Model of JavaScript `parseInt(s)` on a string. -/
def jsParseInt (s : String) : Option Int :=
  jsParseIntChars s.data

/-- The creation-time token the queue comparator reads from a node id:
`parseInt(id.split('-')[1] || '0')`.  A missing or empty second
dash-delimited segment falls back to `'0'` (JavaScript `||` on a falsy
string); a non-empty, non-numeric segment yields `NaN`, modelled as
`none`. -/
def nodeTime (id : String) : Option Int :=
  let slot := (splitOnChar '-' id.data).get? 1
  match slot with
  | none => jsParseIntChars ['0']
  | some s => if s.isEmpty then jsParseIntChars ['0'] else jsParseIntChars s

/-- The sort comparator `timeA - timeB` of `createExecutionQueue`;
`none` models a `NaN` comparison value. -/
def cmpNodes (a b : CodeNode) : Option Int :=
  match nodeTime a.id, nodeTime b.id with
  | some x, some y => some (x - y)
  | _, _ => none

/-- The keep-before test of a stable sort driven by the comparator: an
element placed earlier in the input stays before `b` unless the
comparator is strictly positive; a `NaN` comparison value is neither
positive nor negative, so it also keeps the original order (this is
what every mainstream JavaScript engine does with a `NaN` comparator
result). -/
def sortLe (a b : CodeNode) : Bool :=
  match cmpNodes a b with
  | some v => v ≤ 0
  | none => true

/-- Stable insertion into a sorted list: `x` goes before the first
element it need not follow. -/
def jsInsert {α : Type} (le : α → α → Bool) (x : α) : List α → List α
  | [] => [x]
  | y :: ys => if le x y then x :: y :: ys else y :: jsInsert le x ys

/-- Stable sort (insertion sort).  On a consistent comparator every
stable sort computes the same list, so this models
`Array.prototype.sort`, which is required to be stable. -/
def jsSort {α : Type} (le : α → α → Bool) : List α → List α
  | [] => []
  | x :: xs => jsInsert le x (jsSort le xs)

/-- Model of `QueueFlowExecutor.createExecutionQueue`: the node with id
`input-node` first (empty queue when absent), then the remaining nodes
sorted by the timestamp token embedded in their ids. -/
def createExecutionQueue (nodes : List CodeNode) : List String :=
  match nodes.find? (fun n => n.id == "input-node") with
  | none => []
  | some inputNode =>
    let connectedNodes := nodes.filter (fun n => n.id != "input-node")
    let sorted := jsSort sortLe connectedNodes
    inputNode.id :: sorted.map (fun n => n.id)

/-- Log severity of an `ExecutionLog` record. -/
inductive LogType : Type where
  | info
  | success
  | error
  | warning
deriving DecidableEq

/-- The wall-clock reading `new Date().toISOString()`, modelled as an
uninterpreted constant: no verified property depends on its value. -/
def isoNow : String := "1970-01-01T00:00:00.000Z"

/-- Model of the `ExecutionLog` interface of `queueFlowExecutor.ts`. -/
structure ExecutionLog where
  nodeId : String
  nodeName : String
  timestamp : String
  type : LogType
  message : String
  data : Option JSValue := none

/-- Builds one log record the way the `addLog` closure of
`QueueFlowExecutor.executeFlow` does. -/
def mkLog (nodeId nodeName : String) (type : LogType) (message : String)
    (data : Option JSValue := none) : ExecutionLog :=
  { nodeId := nodeId, nodeName := nodeName, timestamp := isoNow,
    type := type, message := message, data := data }

/-- Model of the `NodeExecutionResult` interface. -/
structure NodeExecutionResult where
  success : Bool
  output : Option JSValue := none
  error : Option String := none
  logs : List String

/-- An observable callback invocation of `QueueFlowExecutor.executeFlow`:
`onNodeStart` or `onNodeComplete` (`onLog` invocations coincide with the
records of the returned `logs` list and are not duplicated here). -/
inductive QEvent : Type where
  | nodeStart (nodeId : String)
  | nodeComplete (nodeId : String) (result : NodeExecutionResult)

/-- Outcome of one `fetch` round-trip as `executeNode` observes it:
either the fetch or the body decode rejects (transport error), or a
response arrives with its `ok` flag, status, status text and decoded
JSON body. -/
inductive FetchOutcome : Type where
  | transportError (msg : String)
  | response (ok : Bool) (status : Nat) (statusText : String) (data : JSValue)

/-- One entry of the preset call-template table `API_ENDPOINTS`. -/
structure ApiEndpoint where
  name : String
  path : String
  method : String
  payload : Option String := none

/-- The fixed base URL of the remote execution service. -/
def API_BASE_URL : String :=
  "https://python-executor-487010489347.us-central1.run.app"

/-- The preset call templates of `QueueFlowExecutor`. -/
def API_ENDPOINTS : List ApiEndpoint :=
  [ { name := "Health Check", path := "/health", method := "GET" },
    { name := "Basic Function Test", path := "/execute", method := "POST",
      payload := some
        "def main():\n    return \x7b\"message\": \"Hello from Cloud Run!\", \"status\": \"success\"\x7d" },
    { name := "Library Test", path := "/execute", method := "POST",
      payload := some
        "import pandas as pd\nimport numpy as np\n\ndef main():\n    arr = np.array([1, 2, 3, 4, 5])\n    df = pd.DataFrame(\x7b\"numbers\": arr\x7d)\n    return \x7b\"mean\": float(np.mean(arr)), \"sum\": int(np.sum(arr)), \"dataframe_shape\": df.shape\x7d" },
    { name := "Stdout Capture Test", path := "/execute", method := "POST",
      payload := some
        "def main():\n    print(\"Processing data...\")\n    print(\"Calculation complete!\")\n    return \x7b\"result\": \"success\", \"value\": 42\x7d" } ]

/-- The fixed payload the entry node manufactures. -/
def entryPayload : JSValue :=
  JSValue.obj [("status", JSValue.str "initialized"),
               ("timestamp", JSValue.str isoNow)]

/-- Model of `QueueFlowExecutor.executeNode`.  The `net` parameter gives
the outcome of the network round-trip issued on behalf of the node at a
given queue position (the request itself is a pure function of that
position).  Returns the log records the method emits through `addLog`,
in order, together with its `NodeExecutionResult`.  The method catches
every fetch/decode/status failure itself and never throws.  The
`(nodeIndex - 1)` in the template selection uses truncation at zero;
index `0` always carries the entry node (the queue starts with it), so
the subtraction is never reached at zero with a non-entry node. -/
def executeNode (net : Nat → FetchOutcome) (node : CodeNode)
    (nodeIndex : Nat) : List ExecutionLog × NodeExecutionResult :=
  if node.id == "input-node" then
    ([mkLog node.id node.label LogType.info "Input node initialized"],
     { success := true, output := some entryPayload,
       logs := ["Input node initialized"] })
  else
    let apiIndex := (nodeIndex - 1) % API_ENDPOINTS.length
    let endpoint := API_ENDPOINTS.getD apiIndex
      { name := "", path := "", method := "GET" }
    let l1 := mkLog node.id node.label LogType.info
      ("Using API endpoint: " ++ endpoint.name)
    let url := API_BASE_URL ++ endpoint.path
    let l2 := mkLog node.id node.label LogType.info
      ("Making " ++ endpoint.method ++ " request to " ++ url)
    match net nodeIndex with
    | FetchOutcome.transportError msg =>
      ([l1, l2, mkLog node.id node.label LogType.error
          ("API call failed: " ++ msg)],
       { success := false, error := some msg,
         logs := ["API call to " ++ endpoint.name ++ " failed: " ++ msg] })
    | FetchOutcome.response ok status statusText data =>
      if ok then
        ([l1, l2, mkLog node.id node.label LogType.success
            "API call successful" (some data)],
         { success := true, output := some data,
           logs := ["API call to " ++ endpoint.name ++ " successful"] })
      else
        let msg := "API request failed: " ++ toString status ++ " " ++ statusText
        ([l1, l2, mkLog node.id node.label LogType.error
            ("API call failed: " ++ msg)],
         { success := false, error := some msg,
           logs := ["API call to " ++ endpoint.name ++ " failed: " ++ msg] })

/-- A per-node dispatch strategy as the `runAll` loop sees it: the log
records emitted before returning or throwing, and either a result
(`Except.ok`) or a thrown error (`Except.error`).  `executeNode`
instantiates it and never throws; the abstract parameter lets the
loop's local catch be verified for any strategy. -/
def Dispatch : Type :=
  CodeNode → Nat → List ExecutionLog × Except String NodeExecutionResult

/-- The mutable state of one `runAll` loop. -/
structure QueueState where
  completed : List String
  finalOut : Option JSValue
  logs : List ExecutionLog
  events : List QEvent

/-- JavaScript `result.error || 'Execution failed'`: an absent or empty
error message falls back to the fixed text. -/
def errOr : Option String → String
  | some s => if s = "" then "Execution failed" else s
  | none => "Execution failed"

/-- One iteration of the `runAll` loop over queue entry `nodeId` at
position `i`: look the node up (log an error and skip when absent),
log the start, fire `onNodeStart`, dispatch, then record either the
success (output captured, node completed) or the failure, firing
`onNodeComplete` either way; a thrown dispatch is caught here, logged
and reported as a failed result.  The fixed settling delay has no
observable effect on the state and is not modelled. -/
def processEntry (dispatch : Dispatch) (nodes : List CodeNode) (i : Nat)
    (nodeId : String) (st : QueueState) : QueueState :=
  match nodes.find? (fun n => n.id == nodeId) with
  | none =>
    { st with logs := st.logs ++
        [mkLog nodeId "Unknown" LogType.error "Node not found in workflow"] }
  | some node =>
    let st1 : QueueState :=
      { st with
        logs := st.logs ++
          [mkLog nodeId node.label LogType.info
            ("Executing node: " ++ node.label)],
        events := st.events ++ [QEvent.nodeStart nodeId] }
    match dispatch node i with
    | (reqs, Except.ok result) =>
      let st2 : QueueState := { st1 with logs := st1.logs ++ reqs }
      if result.success then
        { st2 with
          finalOut := result.output,
          completed := st2.completed ++ [nodeId],
          logs := st2.logs ++
            [mkLog nodeId node.label LogType.success
              "Node executed successfully" result.output],
          events := st2.events ++ [QEvent.nodeComplete nodeId result] }
      else
        { st2 with
          logs := st2.logs ++
            [mkLog nodeId node.label LogType.error (errOr result.error)],
          events := st2.events ++ [QEvent.nodeComplete nodeId result] }
    | (reqs, Except.error msg) =>
      { st1 with
        logs := st1.logs ++ reqs ++
          [mkLog nodeId node.label LogType.error
            ("Execution error: " ++ msg)],
        events := st1.events ++
          [QEvent.nodeComplete nodeId
            { success := false, error := some msg, logs := [] }] }

/-- The `runAll` loop: fold `processEntry` over the queue with a running
position counter. -/
def runQueue (dispatch : Dispatch) (nodes : List CodeNode) :
    List String → Nat → QueueState → QueueState
  | [], _, st => st
  | nodeId :: rest, i, st =>
    runQueue dispatch nodes rest (i + 1)
      (processEntry dispatch nodes i nodeId st)

/-- Model of the `QueueExecutionResult` interface. -/
structure QueueExecutionResult where
  success : Bool
  executionQueue : List String
  completedNodes : List String
  finalOutput : Option JSValue := none
  error : Option String := none
  logs : List ExecutionLog

/-- Model of `QueueFlowExecutor.executeFlow` over an arbitrary dispatch
strategy: derive the queue, log the system start record, run the loop,
log the system completion record and return a successful summary
together with the observable callback invocations.  In the source an
outer try/catch additionally guards the loop; nothing inside the
modelled loop can throw (each iteration's body is guarded by the local
catch), so the outer catch branch is unreachable here. -/
def executeFlowQ (dispatch : Dispatch) (nodes : List CodeNode) :
    QueueExecutionResult × List QEvent :=
  let executionQueue := createExecutionQueue nodes
  let st0 : QueueState :=
    { completed := [], finalOut := none,
      logs := [mkLog "system" "System" LogType.info
        ("Starting workflow execution with " ++
          toString executionQueue.length ++ " nodes")],
      events := [] }
  let st := runQueue dispatch nodes executionQueue 0 st0
  ({ success := true,
     executionQueue := executionQueue,
     completedNodes := st.completed,
     finalOutput := st.finalOut,
     logs := st.logs ++
       [mkLog "system" "System" LogType.success
         "Workflow execution completed successfully"] },
   st.events)

/-- The concrete dispatch strategy of `runAll`: `executeNode`, which
never throws. -/
def execDispatch (net : Nat → FetchOutcome) : Dispatch :=
  fun node i =>
    let p := executeNode net node i
    (p.1, Except.ok p.2)

/-- Model of `QueueFlowExecutor.executeFlow` as called by the UI. -/
def QueueFlowExecutor.executeFlow (net : Nat → FetchOutcome)
    (nodes : List CodeNode) : QueueExecutionResult × List QEvent :=
  executeFlowQ (execDispatch net) nodes

/-- Result of `executeNodeStepByStep`. -/
structure StepResult where
  result : NodeExecutionResult
  hasNext : Bool

/-- Reads a JavaScript array at a possibly negative integer index:
out-of-range access yields `undefined`, modelled as `none`. -/
def getAtInt {α : Type} (l : List α) (i : Int) : Option α :=
  if i < 0 then none else l.get? i.toNat

/-- Model of `QueueFlowExecutor.executeNodeStepByStep`: recompute the
queue, return the sentinel failure when the cursor is at or past its
end, otherwise execute the node at the cursor (with a no-op `addLog`)
and report whether a further node exists. -/
def executeNodeStepByStep (net : Nat → FetchOutcome)
    (nodes : List CodeNode) (currentStep : Int) : StepResult :=
  let executionQueue := createExecutionQueue nodes
  if currentStep ≥ (executionQueue.length : Int) then
    { result := { success := false, error := some "No more nodes to execute",
                  logs := [] },
      hasNext := false }
  else
    match getAtInt executionQueue currentStep with
    | none =>
      { result := { success := false, error := some "Node not found",
                    logs := [] },
        hasNext := currentStep + 1 < (executionQueue.length : Int) }
    | some nodeId =>
      match nodes.find? (fun n => n.id == nodeId) with
      | none =>
        { result := { success := false, error := some "Node not found",
                      logs := [] },
          hasNext := currentStep + 1 < (executionQueue.length : Int) }
      | some node =>
        { result := (executeNode net node currentStep.toNat).2,
          hasNext := currentStep + 1 < (executionQueue.length : Int) }

/-- The log records one queue entry contributes to a `runAll` log trail:
one "Executing node" record, the records the dispatch emits, and one
terminal success/error record — or a single error record when the id
matches no node. -/
def entryLogs (dispatch : Dispatch) (nodes : List CodeNode) (i : Nat)
    (nodeId : String) : List ExecutionLog :=
  match nodes.find? (fun n => n.id == nodeId) with
  | none => [mkLog nodeId "Unknown" LogType.error "Node not found in workflow"]
  | some node =>
    mkLog nodeId node.label LogType.info ("Executing node: " ++ node.label) ::
      (match dispatch node i with
       | (reqs, Except.ok result) =>
         reqs ++
           [if result.success then
              mkLog nodeId node.label LogType.success
                "Node executed successfully" result.output
            else
              mkLog nodeId node.label LogType.error (errOr result.error)]
       | (reqs, Except.error msg) =>
         reqs ++
           [mkLog nodeId node.label LogType.error
             ("Execution error: " ++ msg)])

/-- The callback invocations one queue entry contributes: `onNodeStart`
then `onNodeComplete` with the dispatch result (a thrown dispatch is
reported as a failed result); an entry whose id matches no node fires
neither. -/
def entryEvents (dispatch : Dispatch) (nodes : List CodeNode) (i : Nat)
    (nodeId : String) : List QEvent :=
  match nodes.find? (fun n => n.id == nodeId) with
  | none => []
  | some node =>
    [QEvent.nodeStart nodeId,
     QEvent.nodeComplete nodeId
       (match dispatch node i with
        | (_, Except.ok result) => result
        | (_, Except.error msg) =>
          { success := false, error := some msg, logs := [] })]

/-- Whether one queue entry's execution returns `success: true`. -/
def entrySucceeds (dispatch : Dispatch) (nodes : List CodeNode) (i : Nat)
    (nodeId : String) : Bool :=
  match nodes.find? (fun n => n.id == nodeId) with
  | none => false
  | some node =>
    match dispatch node i with
    | (_, Except.ok result) => result.success
    | (_, Except.error _) => false

/-- The output one queue entry's execution returns. -/
def entryOutput (dispatch : Dispatch) (nodes : List CodeNode) (i : Nat)
    (nodeId : String) : Option JSValue :=
  match nodes.find? (fun n => n.id == nodeId) with
  | none => none
  | some node =>
    match dispatch node i with
    | (_, Except.ok result) => result.output
    | (_, Except.error _) => none

/-- The full log trail of the loop over a queue suffix starting at
position `i`. -/
def queueLogs (dispatch : Dispatch) (nodes : List CodeNode) :
    List String → Nat → List ExecutionLog
  | [], _ => []
  | nodeId :: rest, i =>
    entryLogs dispatch nodes i nodeId ++
      queueLogs dispatch nodes rest (i + 1)

/-- The full callback trace of the loop over a queue suffix. -/
def queueEvents (dispatch : Dispatch) (nodes : List CodeNode) :
    List String → Nat → List QEvent
  | [], _ => []
  | nodeId :: rest, i =>
    entryEvents dispatch nodes i nodeId ++
      queueEvents dispatch nodes rest (i + 1)

/-- The successful queue entries, in queue order. -/
def queueCompleted (dispatch : Dispatch) (nodes : List CodeNode) :
    List String → Nat → List String
  | [], _ => []
  | nodeId :: rest, i =>
    (if entrySucceeds dispatch nodes i nodeId then [nodeId] else []) ++
      queueCompleted dispatch nodes rest (i + 1)

/-- The final output after the loop over a queue suffix: the output of
the last successful entry, or the accumulator when none succeeds. -/
def queueFinal (dispatch : Dispatch) (nodes : List CodeNode) :
    List String → Nat → Option JSValue → Option JSValue
  | [], _, acc => acc
  | nodeId :: rest, i, acc =>
    queueFinal dispatch nodes rest (i + 1)
      (if entrySucceeds dispatch nodes i nodeId then
        entryOutput dispatch nodes i nodeId
      else acc)

theorem processEntry_eq (dispatch : Dispatch) (nodes : List CodeNode)
    (i : Nat) (nodeId : String) (st : QueueState) :
    processEntry dispatch nodes i nodeId st =
      { completed := st.completed ++
          (if entrySucceeds dispatch nodes i nodeId then [nodeId] else []),
        finalOut :=
          (if entrySucceeds dispatch nodes i nodeId then
            entryOutput dispatch nodes i nodeId
          else st.finalOut),
        logs := st.logs ++ entryLogs dispatch nodes i nodeId,
        events := st.events ++ entryEvents dispatch nodes i nodeId } := by
  unfold processEntry entrySucceeds entryOutput entryLogs entryEvents
  cases hf : nodes.find? (fun n => n.id == nodeId) with
  | none => simp
  | some node =>
    cases hd : dispatch node i with
    | mk reqs exc =>
      cases exc with
      | ok result =>
        cases hs : result.success <;>
          simp [hd, hs, List.append_assoc]
      | error msg => simp [hd, List.append_assoc]

theorem runQueue_eq (dispatch : Dispatch) (nodes : List CodeNode) :
    ∀ (queue : List String) (i : Nat) (st : QueueState),
    runQueue dispatch nodes queue i st =
      { completed := st.completed ++ queueCompleted dispatch nodes queue i,
        finalOut := queueFinal dispatch nodes queue i st.finalOut,
        logs := st.logs ++ queueLogs dispatch nodes queue i,
        events := st.events ++ queueEvents dispatch nodes queue i } := by
  intro queue
  induction queue with
  | nil => intro i st; simp [runQueue, queueCompleted, queueFinal, queueLogs, queueEvents]
  | cons nodeId rest ih =>
    intro i st
    rw [runQueue, ih (i + 1) (processEntry dispatch nodes i nodeId st),
      processEntry_eq]
    simp [queueCompleted, queueFinal, queueLogs, queueEvents,
      List.append_assoc]

/-- The summary `executeFlowQ` returns, spelled out through the
queue-suffix characterization. -/
theorem executeFlowQ_eq (dispatch : Dispatch) (nodes : List CodeNode) :
    executeFlowQ dispatch nodes =
      ({ success := true,
         executionQueue := createExecutionQueue nodes,
         completedNodes :=
           queueCompleted dispatch nodes (createExecutionQueue nodes) 0,
         finalOutput :=
           queueFinal dispatch nodes (createExecutionQueue nodes) 0 none,
         logs :=
           mkLog "system" "System" LogType.info
             ("Starting workflow execution with " ++
               toString (createExecutionQueue nodes).length ++ " nodes") ::
           queueLogs dispatch nodes (createExecutionQueue nodes) 0 ++
           [mkLog "system" "System" LogType.success
             "Workflow execution completed successfully"] },
       queueEvents dispatch nodes (createExecutionQueue nodes) 0) := by
  unfold executeFlowQ
  simp only [runQueue_eq]
  simp

theorem jsInsert_perm {α : Type} (le : α → α → Bool) (x : α)
    (l : List α) : (jsInsert le x l).Perm (x :: l) := by
  induction l with
  | nil => simp [jsInsert]
  | cons y ys ih =>
    by_cases h : le x y = true
    · simp [jsInsert, h]
    · simp only [jsInsert, if_neg h]
      exact (ih.cons y).trans (List.Perm.swap x y ys)

theorem jsSort_perm {α : Type} (le : α → α → Bool) (l : List α) :
    (jsSort le l).Perm l := by
  induction l with
  | nil => simp [jsSort]
  | cons x xs ih =>
    exact (jsInsert_perm le x (jsSort le xs)).trans (ih.cons x)

theorem pairwise_jsInsert {α : Type} (le : α → α → Bool) (x : α)
    (l : List α) (hl : l.Pairwise (fun a b => le a b = true))
    (htot : ∀ b ∈ l, le x b = true ∨ le b x = true)
    (htrans : ∀ b ∈ l, ∀ c ∈ l,
      le x b = true → le b c = true → le x c = true) :
    (jsInsert le x l).Pairwise (fun a b => le a b = true) := by
  induction l with
  | nil => simp [jsInsert]
  | cons y ys ih =>
    rcases List.pairwise_cons.mp hl with ⟨hy, hys⟩
    by_cases h : le x y = true
    · simp only [jsInsert, if_pos h]
      refine List.pairwise_cons.mpr ⟨?_, hl⟩
      intro z hz
      rcases List.mem_cons.mp hz with rfl | hz'
      · exact h
      · exact htrans y (List.mem_cons_self _ _) z
          (List.mem_cons_of_mem _ hz') h (hy z hz')
    · simp only [jsInsert, if_neg h]
      refine List.pairwise_cons.mpr ⟨?_, ?_⟩
      · intro z hz
        have hz2 : z = x ∨ z ∈ ys := by
          have := (jsInsert_perm le x ys).mem_iff.mp hz
          simpa using this
        rcases hz2 with rfl | hz'
        · rcases htot y (List.mem_cons_self _ _) with h1 | h2
          · exact absurd h1 h
          · exact h2
        · exact hy z hz'
      · exact ih hys (fun b hb => htot b (List.mem_cons_of_mem _ hb))
          (fun b hb c hc => htrans b (List.mem_cons_of_mem _ hb) c
            (List.mem_cons_of_mem _ hc))

theorem pairwise_jsSort {α : Type} (le : α → α → Bool) (l : List α)
    (htot : ∀ a ∈ l, ∀ b ∈ l, le a b = true ∨ le b a = true)
    (htrans : ∀ a ∈ l, ∀ b ∈ l, ∀ c ∈ l,
      le a b = true → le b c = true → le a c = true) :
    (jsSort le l).Pairwise (fun a b => le a b = true) := by
  induction l with
  | nil => simp [jsSort]
  | cons x xs ih =>
    have hsub : ∀ b ∈ jsSort le xs, b ∈ xs :=
      fun b hb => (jsSort_perm le xs).mem_iff.mp hb
    refine pairwise_jsInsert le x (jsSort le xs)
      (ih ?_ ?_) ?_ ?_
    · exact fun a ha b hb => htot a (List.mem_cons_of_mem _ ha) b
        (List.mem_cons_of_mem _ hb)
    · exact fun a ha b hb c hc => htrans a (List.mem_cons_of_mem _ ha) b
        (List.mem_cons_of_mem _ hb) c (List.mem_cons_of_mem _ hc)
    · exact fun b hb => htot x (List.mem_cons_self _ _) b
        (List.mem_cons_of_mem _ (hsub b hb))
    · exact fun b hb c hc => htrans x (List.mem_cons_self _ _) b
        (List.mem_cons_of_mem _ (hsub b hb)) c
        (List.mem_cons_of_mem _ (hsub c hc))

/-- Modelled from the spec: the ordering key the design document
ascribes to queue derivation — the numeric token embedded in a node id,
with ids lacking a parseable token sorting as token `0`. -/
def specToken (id : String) : Int :=
  (nodeTime id).getD 0

theorem createExecutionQueue_eq_of_find (nodes : List CodeNode)
    (inp : CodeNode)
    (h : nodes.find? (fun n => n.id == "input-node") = some inp) :
    createExecutionQueue nodes =
      "input-node" ::
        (jsSort sortLe (nodes.filter (fun n => n.id != "input-node"))).map
          (fun n => n.id) := by
  have hid : inp.id = "input-node" := by
    have := List.find?_some h
    simpa using this
  unfold createExecutionQueue
  rw [h]
  simp [hid]

theorem find_of_mem_ids (nodes : List CodeNode) (id : String)
    (h : ∃ n ∈ nodes, n.id = id) :
    ∃ node, nodes.find? (fun n => n.id == id) = some node ∧
      node.id = id := by
  obtain ⟨n, hn, hnid⟩ := h
  have hsome : (nodes.find? (fun n => n.id == id)).isSome :=
    List.find?_isSome.mpr ⟨n, hn, by simp [hnid]⟩
  obtain ⟨node, hnode⟩ := Option.isSome_iff_exists.mp hsome
  refine ⟨node, hnode, ?_⟩
  have := List.find?_some hnode
  simpa using this

/-- Every id in the sorted tail of the queue resolves, via the loop's
lookup, to a node whose id is that id and is not the entry id. -/
theorem tail_ids_found (nodes : List CodeNode) (id : String)
    (h : id ∈ (jsSort sortLe
      (nodes.filter (fun n => n.id != "input-node"))).map
        (fun n => n.id)) :
    ∃ node, nodes.find? (fun n => n.id == id) = some node ∧
      node.id = id ∧ node.id ≠ "input-node" := by
  rcases List.mem_map.mp h with ⟨n, hn, rfl⟩
  have hn2 : n ∈ nodes.filter (fun n => n.id != "input-node") :=
    (jsSort_perm _ _).mem_iff.mp hn
  have hmem : n ∈ nodes := List.mem_of_mem_filter hn2
  have hne : n.id ≠ "input-node" := by
    have := List.of_mem_filter hn2
    simpa using this
  obtain ⟨node, hnode, hnid⟩ := find_of_mem_ids nodes n.id ⟨n, hmem, rfl⟩
  exact ⟨node, hnode, hnid, by rw [hnid]; exact hne⟩

/-- A revisit of an already-visited id ends the loop successfully at
that point, returning the path accumulated so far. -/
theorem execLoop_visited (nodes : List CodeNode) (edges : List Edge)
    (visited path : List String) (c : String) (out : JSValue)
    (hv : c ∈ visited) :
    execLoop nodes edges visited path (some c) out =
      { success := true, executionPath := path, finalOutput := some out,
        error := none } := by
  rw [execLoop.eq_def]
  dsimp only
  by_cases hc : c = ""
  · rw [if_pos hc]
  · rw [if_neg hc, dif_pos hv]

/-- A current id that matches no node makes the loop fail with a
"not found" error, the id having been pushed onto the path first. -/
theorem execLoop_not_found (nodes : List CodeNode) (edges : List Edge)
    (visited path : List String) (c : String) (out : JSValue)
    (hc : c ≠ "") (hv : c ∉ visited)
    (hf : nodes.find? (fun n => n.id == c) = none) :
    execLoop nodes edges visited path (some c) out =
      { success := false, executionPath := path ++ [c], finalOutput := none,
        error := some ("Node " ++ c ++ " not found") } := by
  rw [execLoop.eq_def]
  dsimp only
  rw [if_neg hc, dif_neg hv]
  split
  · rfl
  · next currentNode heq =>
    rw [hf] at heq
    exact Option.noConfusion heq

theorem execLoop_path_nodup (nodes : List CodeNode) (edges : List Edge)
    (visited path : List String) (cur : Option String) (out : JSValue) :
    path.Nodup → (∀ x ∈ path, x ∈ visited) →
    (execLoop nodes edges visited path cur out).executionPath.Nodup := by
  induction visited, path, cur, out using execLoop.induct nodes edges with
  | case1 visited path out =>
    intro hnd _
    rw [execLoop.eq_def]
    exact hnd
  | case2 visited path out =>
    intro hnd _
    rw [execLoop.eq_def]
    exact hnd
  | case3 visited path out c hc hv =>
    intro hnd _
    rw [execLoop_visited nodes edges visited path c out hv]
    exact hnd
  | case4 visited path out c hc hv hf =>
    intro hnd hsub
    rw [execLoop_not_found nodes edges visited path c out hc hv hf]
    have hcp : c ∉ path := fun hcp => hv (hsub c hcp)
    exact List.nodup_append.mpr ⟨hnd, List.nodup_singleton c,
      fun a ha hb => by
        rw [List.mem_singleton] at hb
        subst hb
        exact hcp ha⟩
  | case5 visited path out c hc hv currentNode hf result hsucc v hout ih =>
    intro hnd hsub
    have hcp : c ∉ path := fun hcp => hv (hsub c hcp)
    have hnd' : (path ++ [c]).Nodup :=
      List.nodup_append.mpr ⟨hnd, List.nodup_singleton c,
        fun a ha hb => by
          rw [List.mem_singleton] at hb
          subst hb
          exact hcp ha⟩
    have hsub' : ∀ x ∈ path ++ [c], x ∈ c :: visited := by
      intro x hx
      rcases List.mem_append.mp hx with h | h
      · exact List.mem_cons_of_mem _ (hsub x h)
      · rw [List.mem_singleton] at h
        subst h
        exact List.mem_cons_self _ _
    have hsucc' : (executeCode currentNode.code { input := out }).success = true :=
      hsucc
    have hout' : (executeCode currentNode.code { input := out }).output = some v :=
      hout
    rw [execLoop.eq_def]
    dsimp only
    rw [if_neg hc, dif_neg hv]
    split
    · next heq =>
      rw [hf] at heq
      exact Option.noConfusion heq
    · next node heq =>
      rw [hf] at heq
      injection heq with heq'
      subst heq'
      rw [if_pos hsucc', hout']
      exact ih hnd' hsub'
  | case6 visited path out c hc hv currentNode hf result hsucc hout ih =>
    intro hnd hsub
    have hcp : c ∉ path := fun hcp => hv (hsub c hcp)
    have hnd' : (path ++ [c]).Nodup :=
      List.nodup_append.mpr ⟨hnd, List.nodup_singleton c,
        fun a ha hb => by
          rw [List.mem_singleton] at hb
          subst hb
          exact hcp ha⟩
    have hsub' : ∀ x ∈ path ++ [c], x ∈ c :: visited := by
      intro x hx
      rcases List.mem_append.mp hx with h | h
      · exact List.mem_cons_of_mem _ (hsub x h)
      · rw [List.mem_singleton] at h
        subst h
        exact List.mem_cons_self _ _
    have hsucc' : (executeCode currentNode.code { input := out }).success = true :=
      hsucc
    have hout' : (executeCode currentNode.code { input := out }).output = none :=
      hout
    rw [execLoop.eq_def]
    dsimp only
    rw [if_neg hc, dif_neg hv]
    split
    · next heq =>
      rw [hf] at heq
      exact Option.noConfusion heq
    · next node heq =>
      rw [hf] at heq
      injection heq with heq'
      subst heq'
      rw [if_pos hsucc', hout']
      exact ih hnd' hsub'
  | case7 visited path out c hc hv currentNode hf result hfail =>
    intro hnd hsub
    have hcp : c ∉ path := fun hcp => hv (hsub c hcp)
    have hnd' : (path ++ [c]).Nodup :=
      List.nodup_append.mpr ⟨hnd, List.nodup_singleton c,
        fun a ha hb => by
          rw [List.mem_singleton] at hb
          subst hb
          exact hcp ha⟩
    have hfail' : ¬ (executeCode currentNode.code { input := out }).success = true :=
      hfail
    rw [execLoop.eq_def]
    dsimp only
    rw [if_neg hc, dif_neg hv]
    split
    · next heq =>
      rw [hf] at heq
      exact Option.noConfusion heq
    · next node heq =>
      rw [hf] at heq
      injection heq with heq'
      subst heq'
      rw [if_neg hfail']
      exact hnd'

/-- A script that compiles and returns `null` regardless of input. -/
def nullScript : Script :=
  { compileError := none, invoke := fun _ => Except.ok JSValue.null }

/-- A script with a syntax error: compilation throws. -/
def badSyntaxScript : Script :=
  { compileError := some "SyntaxError: Unexpected token",
    invoke := fun _ => Except.ok JSValue.null }

/-- A script that compiles and throws when invoked. -/
def throwingScript : Script :=
  { compileError := none, invoke := fun _ => Except.error "boom" }

/-- A canvas node carrying the trivial script. -/
def mkNode (id : String) : CodeNode :=
  { id := id, label := id, code := nullScript }

/-- C3: for every node with exactly two outgoing edges the graph
executor routes to the first edge's target exactly when the node's
output classifies as truthy and to the second edge's target when it
classifies as falsy, where the classification passes booleans through,
holds a number truthy exactly when nonzero, a string and an array
truthy exactly when non-empty, null and undefined falsy, and any other
object truthy — so 0, "", [], null, undefined classify false and an
object, "x", 1, true and non-empty arrays classify true. -/
theorem c3_two_edge_routing (currentNodeId : String) (edges : List Edge)
    (output : JSValue) :
    (∀ e0 e1 : Edge,
      edges.filter (fun e => e.source == currentNodeId) = [e0, e1] →
      findNextNode currentNodeId edges output =
        some (if evaluateCondition output then e0.target else e1.target)) ∧
    evaluateCondition (JSValue.num 0) = false ∧
    evaluateCondition (JSValue.str "") = false ∧
    evaluateCondition (JSValue.arr []) = false ∧
    evaluateCondition JSValue.null = false ∧
    evaluateCondition JSValue.undef = false ∧
    evaluateCondition (JSValue.obj []) = true ∧
    evaluateCondition (JSValue.str "x") = true ∧
    evaluateCondition (JSValue.num 1) = true ∧
    evaluateCondition (JSValue.bool true) = true ∧
    (∀ b, evaluateCondition (JSValue.bool b) = b) ∧
    (∀ n : Int, evaluateCondition (JSValue.num n) = true ↔ n ≠ 0) ∧
    (∀ s : String, evaluateCondition (JSValue.str s) = true ↔ 0 < s.length) ∧
    (∀ v vs, evaluateCondition (JSValue.arr (v :: vs)) = true) ∧
    (∀ fields, evaluateCondition (JSValue.obj fields) = true) := by
  refine ⟨?_, by decide, by decide, by decide, by decide, by decide,
    by decide, by decide, by decide, by decide, ?_, ?_, ?_, ?_, ?_⟩
  · intro e0 e1 h
    cases hcond : evaluateCondition output <;>
      simp [findNextNode, h, hcond]
  · intro b
    cases b <;> rfl
  · intro n
    simp [evaluateCondition]
  · intro s
    simp [evaluateCondition]
  · intro v vs
    simp [evaluateCondition]
  · intro fields
    rfl

/-- Witness for C3 at a concrete two-edge fork: output 1 routes to the
first edge's target, output 0 to the second. -/
theorem c3_witness :
    findNextNode "a"
      [{ id := "e1", source := "a", target := "b" },
       { id := "e2", source := "a", target := "c" }] (JSValue.num 1) =
        some "b" ∧
    findNextNode "a"
      [{ id := "e1", source := "a", target := "b" },
       { id := "e2", source := "a", target := "c" }] (JSValue.num 0) =
        some "c" := by
  constructor
  · have h := (c3_two_edge_routing "a"
      [{ id := "e1", source := "a", target := "b" },
       { id := "e2", source := "a", target := "c" }] (JSValue.num 1)).1
      { id := "e1", source := "a", target := "b" }
      { id := "e2", source := "a", target := "c" } (by decide)
    simpa using h
  · have h := (c3_two_edge_routing "a"
      [{ id := "e1", source := "a", target := "b" },
       { id := "e2", source := "a", target := "c" }] (JSValue.num 0)).1
      { id := "e1", source := "a", target := "b" }
      { id := "e2", source := "a", target := "c" } (by decide)
    simpa using h

/-- C4: for every graph, cyclic ones included, the execution path
returned by the graph executor never contains the same node id twice,
and a run that reaches an already-visited node terminates there with a
successful result rather than an error. -/
theorem c4_path_nodup_and_revisit (nodes : List CodeNode)
    (edges : List Edge) (startNodeId : Option String) :
    (FlowExecutor.executeFlow nodes edges startNodeId).executionPath.Nodup ∧
    (∀ (visited path : List String) (c : String) (out : JSValue),
      c ∈ visited →
      execLoop nodes edges visited path (some c) out =
        { success := true, executionPath := path, finalOutput := some out,
          error := none }) := by
  constructor
  · unfold FlowExecutor.executeFlow
    cases hs : startId nodes edges startNodeId with
    | none => simp
    | some c =>
      dsimp only
      by_cases hc : c = ""
      · simp [hc]
      · rw [if_neg hc]
        exact execLoop_path_nodup nodes edges [] [] (some c) JSValue.null
          List.nodup_nil (by intro x hx; cases hx)
  · intro visited path c out hv
    exact execLoop_visited nodes edges visited path c out hv

/-- Witness for C4: a concrete run has a duplicate-free path, and the
loop arriving at the already-visited id "b" stops successfully. -/
theorem c4_witness :
    (FlowExecutor.executeFlow [mkNode "a"] [] none).executionPath.Nodup ∧
    execLoop [mkNode "a"] [] ["b"] ["b"] (some "b") JSValue.null =
      { success := true, executionPath := ["b"],
        finalOutput := some JSValue.null, error := none } :=
  ⟨(c4_path_nodup_and_revisit [mkNode "a"] [] none).1,
   (c4_path_nodup_and_revisit [mkNode "a"] [] none).2 ["b"] ["b"] "b"
     JSValue.null (List.mem_singleton.mpr rfl)⟩

/-- C5: the script runner never lets an exception escape: a compilation
failure and a runtime failure are both caught and returned as a failed
result carrying the error message, and every failed result carries a
message. -/
theorem c5_executeCode_never_throws (code : Script)
    (context : ExecutionContext) :
    (∀ e, code.compileError = some e →
      executeCode code context =
        { success := false, output := none,
          error := some ("Code compilation error: " ++ e) }) ∧
    (∀ e, code.compileError = none →
      code.invoke context.input = Except.error e →
      executeCode code context =
        { success := false, output := none, error := some e }) ∧
    ((executeCode code context).success = false →
      (executeCode code context).error.isSome = true) := by
  refine ⟨?_, ?_, ?_⟩
  · intro e he
    simp [executeCode, createSafeFunction, he]
  · intro e hc hi
    simp [executeCode, createSafeFunction, hc, hi]
  · unfold executeCode createSafeFunction
    cases hce : code.compileError with
    | some e => simp
    | none =>
      cases hi : code.invoke context.input with
      | ok v => simp [hi]
      | error e => simp [hi]

/-- Witness for C5: a syntax-error script and a throwing script both
yield failed results with messages, never an escaping exception. -/
theorem c5_witness :
    executeCode badSyntaxScript {} =
      { success := false, output := none,
        error := some "Code compilation error: SyntaxError: Unexpected token" } ∧
    executeCode throwingScript {} =
      { success := false, output := none, error := some "boom" } :=
  ⟨(c5_executeCode_never_throws badSyntaxScript {}).1 _ rfl,
   (c5_executeCode_never_throws throwingScript {}).2.1 _ rfl rfl⟩

/-- The three-edge configuration used to settle C6. -/
def c6Edges : List Edge :=
  [{ id := "e1", source := "a", target := "t0" },
   { id := "e2", source := "a", target := "t1" },
   { id := "e3", source := "a", target := "t2" }]

/-- Counterexample to C6 as stated: at a node with three outgoing edges
the next-node computation does not resolve to "no next node" — a truthy
output follows the first edge's target. -/
theorem c6_counterexample :
    findNextNode "a" c6Edges (JSValue.bool true) = some "t0" ∧
    findNextNode "a" c6Edges (JSValue.bool true) ≠ none := by
  constructor <;> decide

/-- C6 amended: for every node with more than two outgoing edges the
next-node computation behaves exactly like the two-edge case — a truthy
output routes to the first outgoing edge's target and a falsy output to
the second — rather than resolving to "no next node". -/
theorem c6_many_edges_routing (currentNodeId : String) (edges : List Edge)
    (output : JSValue) (e0 e1 e2 : Edge) (rest : List Edge)
    (h : edges.filter (fun e => e.source == currentNodeId) =
      e0 :: e1 :: e2 :: rest) :
    findNextNode currentNodeId edges output =
      some (if evaluateCondition output then e0.target else e1.target) := by
  cases hcond : evaluateCondition output <;>
    simp [findNextNode, h, hcond]

/-- Witness for C6's amended statement: a falsy output at the
three-edge node follows the second edge's target. -/
theorem c6_witness :
    findNextNode "a" c6Edges (JSValue.num 0) = some "t1" := by
  have h := c6_many_edges_routing "a" c6Edges (JSValue.num 0)
    { id := "e1", source := "a", target := "t0" }
    { id := "e2", source := "a", target := "t1" }
    { id := "e3", source := "a", target := "t2" } [] (by decide)
  simpa using h

/-- C10: when the graph executor reaches an id matching no node (a
dangling edge target, or an explicit start id naming no node), the id
is appended to the execution path before the lookup fails, so the
failed "not found" result's path ends with that id. -/
theorem c10_dangling_id (nodes : List CodeNode) (edges : List Edge)
    (visited path : List String) (c : String) (out : JSValue)
    (hc : c ≠ "") (hv : c ∉ visited)
    (hf : nodes.find? (fun n => n.id == c) = none) :
    (execLoop nodes edges visited path (some c) out =
      { success := false, executionPath := path ++ [c], finalOutput := none,
        error := some ("Node " ++ c ++ " not found") }) ∧
    (FlowExecutor.executeFlow nodes edges (some c) =
      { success := false, executionPath := [c], finalOutput := none,
        error := some ("Node " ++ c ++ " not found") }) := by
  constructor
  · exact execLoop_not_found nodes edges visited path c out hc hv hf
  · unfold FlowExecutor.executeFlow startId
    dsimp only
    rw [if_neg hc]
    dsimp only
    rw [if_neg hc]
    have h := execLoop_not_found nodes edges [] [] c JSValue.null hc
      (by intro h; cases h) hf
    simpa using h

/-- Witness for C10: starting a run at the id "ghost", which matches no
node, fails with a "not found" error and the path ["ghost"]. -/
theorem c10_witness :
    execLoop [mkNode "a"] [] [] [] (some "ghost") JSValue.null =
      { success := false, executionPath := ["ghost"], finalOutput := none,
        error := some ("Node " ++ "ghost" ++ " not found") } ∧
    FlowExecutor.executeFlow [mkNode "a"] [] (some "ghost") =
      { success := false, executionPath := ["ghost"], finalOutput := none,
        error := some ("Node " ++ "ghost" ++ " not found") } := by
  have h := c10_dangling_id [mkNode "a"] [] [] [] "ghost" JSValue.null
    (by decide) (by simp) (by rfl)
  exact ⟨h.1, h.2⟩

/-- The comparator test `sortLe` agrees with comparing the embedded
tokens whenever both parse. -/
theorem sortLe_of_tokens (a b : CodeNode) (ta tb : Int)
    (ha : nodeTime a.id = some ta) (hb : nodeTime b.id = some tb) :
    sortLe a b = true ↔ ta ≤ tb := by
  simp only [sortLe, cmpNodes, ha, hb, decide_eq_true_eq]
  omega

/-- The node set used to settle C1: the entry node, a node with numeric
token 5, and a node whose token slot is non-empty but not numeric. -/
def c1Nodes : List CodeNode :=
  [mkNode "input-node", mkNode "node-5", mkNode "node-abc"]

/-- Counterexample to C1 as stated: "node-abc" has no parseable token,
and the claim says it sorts as token 0, i.e. before "node-5" (token 5);
but the queue keeps it after "node-5", because `parseInt("abc")` is
`NaN`, the comparator returns `NaN` and the stable sort leaves the pair
in input order — so the tail is not ascending under the
token-or-zero key. -/
theorem c1_counterexample :
    createExecutionQueue c1Nodes = ["input-node", "node-5", "node-abc"] ∧
    specToken "node-5" = 5 ∧
    specToken "node-abc" = 0 ∧
    ¬ specToken "node-5" ≤ specToken "node-abc" := by
  refine ⟨by decide, by decide, by decide, by decide⟩

/-- C1 amended: `buildQueue` returns the empty sequence when no node
has the entry id; otherwise it is the entry id followed by a
permutation of the other nodes' ids, and — provided every other node's
token parses (a missing or empty dash-delimited slot counting as
token 0) — that tail is sorted ascending by the embedded numeric
token.  An id whose token slot is non-empty but not numeric yields a
`NaN` comparison in the source's sort and keeps its input position
instead of sorting as token 0 (see the counterexample). -/
theorem c1_queue_order (nodes : List CodeNode)
    (htok : ∀ n ∈ nodes, n.id ≠ "input-node" →
      (nodeTime n.id).isSome = true) :
    (nodes.find? (fun n => n.id == "input-node") = none →
      createExecutionQueue nodes = []) ∧
    (∀ inp, nodes.find? (fun n => n.id == "input-node") = some inp →
      ∃ tail, createExecutionQueue nodes = "input-node" :: tail ∧
        tail.Perm
          ((nodes.filter (fun n => n.id != "input-node")).map
            (fun n => n.id)) ∧
        tail.Pairwise (fun a b => specToken a ≤ specToken b)) := by
  constructor
  · intro h
    unfold createExecutionQueue
    rw [h]
  · intro inp hfind
    have hq := createExecutionQueue_eq_of_find nodes inp hfind
    refine ⟨_, hq, ?_, ?_⟩
    · exact (jsSort_perm sortLe _).map (fun n => n.id)
    · have hmem : ∀ n ∈ nodes.filter (fun n => n.id != "input-node"),
          (nodeTime n.id).isSome = true := by
        intro n hn
        have h1 : n ∈ nodes := List.mem_of_mem_filter hn
        have h2 : n.id ≠ "input-node" := by
          have := List.of_mem_filter hn
          simpa using this
        exact htok n h1 h2
      have hsorted :
          (jsSort sortLe (nodes.filter (fun n => n.id != "input-node"))).Pairwise
            (fun a b => sortLe a b = true) := by
        apply pairwise_jsSort
        · intro a ha b hb
          obtain ⟨ta, hta⟩ := Option.isSome_iff_exists.mp (hmem a ha)
          obtain ⟨tb, htb⟩ := Option.isSome_iff_exists.mp (hmem b hb)
          rcases le_total ta tb with h | h
          · exact Or.inl ((sortLe_of_tokens a b ta tb hta htb).mpr h)
          · exact Or.inr ((sortLe_of_tokens b a tb ta htb hta).mpr h)
        · intro a ha b hb c hc hab hbc
          obtain ⟨ta, hta⟩ := Option.isSome_iff_exists.mp (hmem a ha)
          obtain ⟨tb, htb⟩ := Option.isSome_iff_exists.mp (hmem b hb)
          obtain ⟨tc, htc⟩ := Option.isSome_iff_exists.mp (hmem c hc)
          exact (sortLe_of_tokens a c ta tc hta htc).mpr
            (le_trans ((sortLe_of_tokens a b ta tb hta htb).mp hab)
              ((sortLe_of_tokens b c tb tc htb htc).mp hbc))
      have hsub : ∀ n ∈ jsSort sortLe
          (nodes.filter (fun n => n.id != "input-node")),
          n ∈ nodes.filter (fun n => n.id != "input-node") :=
        fun n hn => (jsSort_perm sortLe _).mem_iff.mp hn
      rw [List.pairwise_map]
      refine hsorted.imp_of_mem ?_
      intro a b ha hb hab
      obtain ⟨ta, hta⟩ := Option.isSome_iff_exists.mp (hmem a (hsub a ha))
      obtain ⟨tb, htb⟩ := Option.isSome_iff_exists.mp (hmem b (hsub b hb))
      have := (sortLe_of_tokens a b ta tb hta htb).mp hab
      simp only [specToken, hta, htb, Option.getD_some]
      exact this

/-- Witness for C1's amended statement at a concrete node set: the two
timestamped nodes come out behind the entry node in ascending token
order. -/
theorem c1_witness :
    ∃ tail,
      createExecutionQueue
        [mkNode "input-node", mkNode "node-2000", mkNode "node-1000"] =
        "input-node" :: tail ∧
      tail.Perm
        (([mkNode "input-node", mkNode "node-2000",
            mkNode "node-1000"].filter (fun n => n.id != "input-node")).map
          (fun n => n.id)) ∧
      tail.Pairwise (fun a b => specToken a ≤ specToken b) :=
  (c1_queue_order
    [mkNode "input-node", mkNode "node-2000", mkNode "node-1000"]
    (by decide)).2 (mkNode "input-node") (by rfl)

/-- A dispatch strategy that always throws, used as a witness input. -/
def throwDispatch : Dispatch := fun _ _ => ([], Except.error "boom")

/-- C2: a per-node failure or thrown dispatch inside `runAll` is caught
locally, logged as an error, reported through `onNodeComplete` as a
failed result, and the remaining queue entries are still executed — the
callback trace is exactly the per-entry start/complete pairs over the
whole queue and the run returns overall success (nothing inside the
modelled loop can raise past the per-entry catch, so the outer
failure branch is unreachable). -/
theorem c2_per_node_failure_isolated (dispatch : Dispatch)
    (nodes : List CodeNode) :
    (executeFlowQ dispatch nodes).1.success = true ∧
    (executeFlowQ dispatch nodes).2 =
      queueEvents dispatch nodes (createExecutionQueue nodes) 0 ∧
    (∀ (i : Nat) (nodeId : String) (node : CodeNode)
        (reqs : List ExecutionLog) (msg : String),
      nodes.find? (fun n => n.id == nodeId) = some node →
      dispatch node i = (reqs, Except.error msg) →
      entryEvents dispatch nodes i nodeId =
        [QEvent.nodeStart nodeId,
         QEvent.nodeComplete nodeId
           { success := false, output := none, error := some msg,
             logs := [] }] ∧
      mkLog nodeId node.label LogType.error ("Execution error: " ++ msg) ∈
        entryLogs dispatch nodes i nodeId) := by
  refine ⟨?_, ?_, ?_⟩
  · rw [executeFlowQ_eq]
  · rw [executeFlowQ_eq]
  · intro i nodeId node reqs msg hf hd
    constructor
    · unfold entryEvents
      rw [hf]
      dsimp only
      rw [hd]
    · unfold entryLogs
      rw [hf]
      dsimp only
      rw [hd]
      simp

/-- Witness for C2: with a dispatch that always throws, the run over
the single-entry queue still succeeds and the entry is reported
complete with a failed result. -/
theorem c2_witness :
    (executeFlowQ throwDispatch [mkNode "input-node"]).1.success = true ∧
    entryEvents throwDispatch [mkNode "input-node"] 0 "input-node" =
      [QEvent.nodeStart "input-node",
       QEvent.nodeComplete "input-node"
         { success := false, output := none, error := some "boom",
           logs := [] }] :=
  ⟨(c2_per_node_failure_isolated throwDispatch [mkNode "input-node"]).1,
   ((c2_per_node_failure_isolated throwDispatch
      [mkNode "input-node"]).2.2 0 "input-node" (mkNode "input-node") []
      "boom" rfl rfl).1⟩

/-- Position-indexed entries of a list, indices starting at `i`. -/
def enumF {α : Type} : Nat → List α → List (Nat × α)
  | _, [] => []
  | i, x :: xs => (i, x) :: enumF (i + 1) xs

/-- The queue entries whose execution returns `success: true`, with
their positions, in queue order. -/
def succEntries (dispatch : Dispatch) (nodes : List CodeNode)
    (q : List String) : List (Nat × String) :=
  (enumF 0 q).filter (fun p => entrySucceeds dispatch nodes p.1 p.2)

theorem queueCompleted_eq_filter (dispatch : Dispatch)
    (nodes : List CodeNode) :
    ∀ (q : List String) (i : Nat),
    queueCompleted dispatch nodes q i =
      ((enumF i q).filter
        (fun p => entrySucceeds dispatch nodes p.1 p.2)).map
        (fun p => p.2) := by
  intro q
  induction q with
  | nil => intro i; simp [queueCompleted, enumF]
  | cons nodeId rest ih =>
    intro i
    rw [queueCompleted, enumF]
    cases hs : entrySucceeds dispatch nodes i nodeId <;>
      simp [List.filter_cons, hs, ih (i + 1)]

theorem queueFinal_eq_last (dispatch : Dispatch) (nodes : List CodeNode) :
    ∀ (q : List String) (i : Nat) (acc : Option JSValue),
    queueFinal dispatch nodes q i acc =
      (match ((enumF i q).filter
          (fun p => entrySucceeds dispatch nodes p.1 p.2)).getLast? with
       | some p => entryOutput dispatch nodes p.1 p.2
       | none => acc) := by
  intro q
  induction q with
  | nil => intro i acc; simp [queueFinal, enumF]
  | cons nodeId rest ih =>
    intro i acc
    rw [queueFinal, enumF]
    cases hs : entrySucceeds dispatch nodes i nodeId
    · rw [if_neg (by simp)]
      rw [ih (i + 1) acc]
      simp [List.filter_cons, hs]
    · rw [if_pos rfl]
      rw [ih (i + 1) (entryOutput dispatch nodes i nodeId)]
      simp only [List.filter_cons, hs, if_pos]
      cases hfr : (enumF (i + 1) rest).filter
          (fun p => entrySucceeds dispatch nodes p.1 p.2) with
      | nil => simp
      | cons y ys =>
        cases hgl : (y :: ys).getLast? with
        | none => simp at hgl
        | some z => simp [hgl]

/-- C9: `completedNodes` is exactly the queue entries whose execution
returned success, in queue order; `finalOutput` is the output of the
last successful entry; a failing entry leaves the accumulator
unchanged; and `finalOutput` is null when no entry succeeded. -/
theorem c9_completed_and_final (dispatch : Dispatch)
    (nodes : List CodeNode) :
    ((executeFlowQ dispatch nodes).1.completedNodes =
      (succEntries dispatch nodes (createExecutionQueue nodes)).map
        (fun p => p.2)) ∧
    ((executeFlowQ dispatch nodes).1.finalOutput =
      (match (succEntries dispatch nodes
          (createExecutionQueue nodes)).getLast? with
       | some p => entryOutput dispatch nodes p.1 p.2
       | none => none)) ∧
    (∀ (q : List String) (i : Nat) (acc : Option JSValue)
        (nodeId : String),
      entrySucceeds dispatch nodes i nodeId = false →
      queueFinal dispatch nodes (nodeId :: q) i acc =
        queueFinal dispatch nodes q (i + 1) acc) ∧
    ((succEntries dispatch nodes (createExecutionQueue nodes)) = [] →
      (executeFlowQ dispatch nodes).1.finalOutput = none) := by
  have h1 : (executeFlowQ dispatch nodes).1.completedNodes =
      queueCompleted dispatch nodes (createExecutionQueue nodes) 0 := by
    rw [executeFlowQ_eq]
  have h2 : (executeFlowQ dispatch nodes).1.finalOutput =
      queueFinal dispatch nodes (createExecutionQueue nodes) 0 none := by
    rw [executeFlowQ_eq]
  refine ⟨?_, ?_, ?_, ?_⟩
  · rw [h1, queueCompleted_eq_filter]
    rfl
  · rw [h2, queueFinal_eq_last]
    rfl
  · intro q i acc nodeId hs
    rw [queueFinal, hs]
    simp
  · intro hnone
    rw [h2, queueFinal_eq_last]
    unfold succEntries at hnone
    rw [hnone]
    rfl

/-- Witness for C9: with an always-throwing dispatch nothing completes
and the final output stays null. -/
theorem c9_witness :
    (executeFlowQ throwDispatch [mkNode "input-node"]).1.completedNodes =
      [] ∧
    (executeFlowQ throwDispatch [mkNode "input-node"]).1.finalOutput =
      none := by
  have h := c9_completed_and_final throwDispatch [mkNode "input-node"]
  refine ⟨?_, ?_⟩
  · rw [h.1]
    rfl
  · rw [h.2.1]
    rfl

/-- The network outcome used in concrete queue runs: every call fails
in transport. -/
def net0 : Nat → FetchOutcome := fun _ => FetchOutcome.transportError "down"

/-- The dispatch `executeNode` emits one log record for the entry node
and three for an API node, whatever the network does. -/
theorem executeNode_reqs_length (net : Nat → FetchOutcome)
    (node : CodeNode) (i : Nat) :
    (executeNode net node i).1.length =
      if node.id == "input-node" then 1 else 3 := by
  unfold executeNode
  by_cases h : (node.id == "input-node") = true
  · simp [h]
  · rw [if_neg h, if_neg h]
    cases hn : net i with
    | transportError msg => simp
    | response ok status statusText data => cases ok <;> simp

/-- One queue entry whose id resolves contributes three log records for
the entry node and five for an API node. -/
theorem entryLogs_length (net : Nat → FetchOutcome)
    (nodes : List CodeNode) (i : Nat) (nodeId : String) (node : CodeNode)
    (hf : nodes.find? (fun n => n.id == nodeId) = some node) :
    (entryLogs (execDispatch net) nodes i nodeId).length =
      if node.id == "input-node" then 3 else 5 := by
  unfold entryLogs
  rw [hf]
  dsimp only [execDispatch]
  have h := executeNode_reqs_length net node i
  by_cases hid : (node.id == "input-node") = true
  · rw [hid] at h ⊢
    simp [h]
  · rw [if_neg hid] at h ⊢
    simp [h]

/-- The loop over a queue suffix of API entries contributes five log
records per entry. -/
theorem queueLogs_length_api (net : Nat → FetchOutcome)
    (nodes : List CodeNode) :
    ∀ (q : List String) (i : Nat),
    (∀ id ∈ q, ∃ node, nodes.find? (fun n => n.id == id) = some node ∧
      node.id ≠ "input-node") →
    (queueLogs (execDispatch net) nodes q i).length = 5 * q.length := by
  intro q
  induction q with
  | nil => intro i _; simp [queueLogs]
  | cons id rest ih =>
    intro i hall
    obtain ⟨node, hf, hne⟩ := hall id (List.mem_cons_self _ _)
    have h1 := entryLogs_length net nodes i id node hf
    rw [if_neg (by simpa using hne)] at h1
    rw [queueLogs]
    rw [List.length_append, h1,
      ih (i + 1) (fun x hx => hall x (List.mem_cons_of_mem _ hx))]
    simp [List.length_cons]
    ring

/-- Counterexample to C7 as stated: over the single-entry queue the run
emits five log records, not 2·1 + 2 = 4 — `executeNode` itself logs
through the shared `addLog` closure, beyond the claim's per-node
start/terminal pair. -/
theorem c7_counterexample :
    ((QueueFlowExecutor.executeFlow net0 [mkNode "input-node"]).1.logs).length
      = 5 ∧
    (createExecutionQueue [mkNode "input-node"]).length = 1 ∧
    ((QueueFlowExecutor.executeFlow net0 [mkNode "input-node"]).1.logs).length
      ≠ 2 * (createExecutionQueue [mkNode "input-node"]).length + 2 := by
  refine ⟨by rfl, by rfl, by decide⟩

/-- C7 amended: over a queue derived with the entry node present,
`runAll` emits five log records per queue entry in total — for the
entry node one start, one from its dispatch and one terminal record
(three), for an API node one start, three from its dispatch and one
terminal record (five), plus the leading and trailing system records —
so the log list has length 5n for a queue of length n, not 2n + 2. -/
theorem c7_log_count (net : Nat → FetchOutcome) (nodes : List CodeNode)
    (inp : CodeNode)
    (hfind : nodes.find? (fun n => n.id == "input-node") = some inp) :
    ((QueueFlowExecutor.executeFlow net nodes).1.logs).length =
      5 * (createExecutionQueue nodes).length := by
  have hq := createExecutionQueue_eq_of_find nodes inp hfind
  have hid : inp.id = "input-node" := by
    have := List.find?_some hfind
    simpa using this
  have htail := queueLogs_length_api net nodes
    ((jsSort sortLe (nodes.filter (fun n => n.id != "input-node"))).map
      (fun n => n.id)) 1
    (fun id hid2 => by
      obtain ⟨node, hnf, _, hne⟩ := tail_ids_found nodes id hid2
      exact ⟨node, hnf, hne⟩)
  have hhead := entryLogs_length net nodes 0 "input-node" inp hfind
  rw [if_pos (by simpa using hid)] at hhead
  unfold QueueFlowExecutor.executeFlow
  rw [executeFlowQ_eq]
  dsimp only
  rw [hq, queueLogs]
  have h01 : (0 : Nat) + 1 = 1 := rfl
  rw [h01]
  simp only [List.length_cons, List.length_append, List.length_singleton,
    List.length_nil]
  rw [hhead, htail]
  omega

/-- Witness for C7's amended count at a two-node set: ten log records. -/
theorem c7_witness :
    ((QueueFlowExecutor.executeFlow net0
      [mkNode "input-node", mkNode "node-1000"]).1.logs).length = 10 := by
  have h := c7_log_count net0 [mkNode "input-node", mkNode "node-1000"]
    (mkNode "input-node") rfl
  rw [h]
  rfl

/-- C8: stepwise execution returns `hasNext = cursor + 1 < queueLength`
for every integer cursor; a cursor at or past the queue length returns
the sentinel failure result with `hasNext` false; and cursor 0 on a
queue whose first entry is the entry node executes that node and
returns the fixed initialized payload with success. -/
theorem c8_step_contract (net : Nat → FetchOutcome)
    (nodes : List CodeNode) (currentStep : Int) :
    ((executeNodeStepByStep net nodes currentStep).hasNext =
      decide (currentStep + 1 <
        ((createExecutionQueue nodes).length : Int))) ∧
    (currentStep ≥ ((createExecutionQueue nodes).length : Int) →
      executeNodeStepByStep net nodes currentStep =
        { result := { success := false, output := none,
                      error := some "No more nodes to execute", logs := [] },
          hasNext := false }) ∧
    (∀ inp, nodes.find? (fun n => n.id == "input-node") = some inp →
      (executeNodeStepByStep net nodes 0).result =
        { success := true, output := some entryPayload, error := none,
          logs := ["Input node initialized"] }) := by
  refine ⟨?_, ?_, ?_⟩
  · unfold executeNodeStepByStep
    dsimp only
    by_cases hge : currentStep ≥ ((createExecutionQueue nodes).length : Int)
    · rw [if_pos hge]
      have hlt : ¬ (currentStep + 1 <
          ((createExecutionQueue nodes).length : Int)) := by omega
      simp [hlt]
    · rw [if_neg hge]
      cases h1 : getAtInt (createExecutionQueue nodes) currentStep with
      | none => simp [h1]
      | some nodeId =>
        cases h2 : nodes.find? (fun n => n.id == nodeId) with
        | none => simp [h1, h2]
        | some node => simp [h1, h2]
  · intro hge
    unfold executeNodeStepByStep
    dsimp only
    rw [if_pos hge]
  · intro inp hfind
    have hq := createExecutionQueue_eq_of_find nodes inp hfind
    have hid : inp.id = "input-node" := by
      have := List.find?_some hfind
      simpa using this
    unfold executeNodeStepByStep
    dsimp only
    rw [hq]
    rw [if_neg (by
      simp only [List.length_cons]
      push_cast
      omega)]
    have hget : getAtInt
        ("input-node" ::
          (jsSort sortLe (nodes.filter (fun n => n.id != "input-node"))).map
            (fun n => n.id)) (0 : Int) = some "input-node" := rfl
    rw [hget]
    dsimp only
    rw [hfind]
    dsimp only
    unfold executeNode
    rw [if_pos (by simpa using hid)]

/-- Witness for C8 at the design document's scenario: cursor 0 executes
the entry node with a next step remaining, cursor 3 is out of range and
returns the sentinel with no next step. -/
theorem c8_witness :
    (executeNodeStepByStep net0
      [mkNode "input-node", mkNode "node-1000"] 0).result =
      { success := true, output := some entryPayload, error := none,
        logs := ["Input node initialized"] } ∧
    executeNodeStepByStep net0
      [mkNode "input-node", mkNode "node-1000"] 3 =
      { result := { success := false, output := none,
                    error := some "No more nodes to execute", logs := [] },
        hasNext := false } ∧
    (executeNodeStepByStep net0
      [mkNode "input-node", mkNode "node-1000"] 0).hasNext = true := by
  refine ⟨?_, ?_, ?_⟩
  · exact (c8_step_contract net0
      [mkNode "input-node", mkNode "node-1000"] 0).2.2
      (mkNode "input-node") rfl
  · exact (c8_step_contract net0
      [mkNode "input-node", mkNode "node-1000"] 3).2.1 (by decide)
  · rw [(c8_step_contract net0
      [mkNode "input-node", mkNode "node-1000"] 0).1]
    decide
